import Mathlib

/-
Verification of the anu-qrng-go client library (qrng.go).

The library is a client for a remote quantum random number service.  We give a
shallow embedding of its pure logic: Go machine integers (`int`, 64-bit,
two's complement) are modelled as `Int` with explicit wrapping modulo 2^64;
the HTTP transport is modelled by passing the decoded JSON envelope(s)
explicitly (one `QRNGResponse` per request; the rejection-sampling loop of
`GetRandomNumber` consumes a list of envelopes, one per draw).  Fallible
operations return `Except ReqError`.
-/

namespace QRNG

/-- Two's-complement wrap of an integer to signed 64-bit range, the semantics
of Go arithmetic on `int` (64-bit platforms). -/
def wrap64 (x : Int) : Int := (x + 2 ^ 63) % 2 ^ 64 - 2 ^ 63

/-- The unsigned 64-bit representation (bit pattern) of a Go `int` value. -/
def toU64 (x : Int) : Nat := (x % 2 ^ 64).toNat

/-- Go `&` on `int`: bitwise AND of the two's-complement bit patterns. -/
def int64And (x y : Int) : Int := wrap64 ((Nat.land (toU64 x) (toU64 y) : Nat) : Int)

/-- Go `|` on `int`: bitwise OR of the two's-complement bit patterns. -/
def int64Or (x y : Int) : Int := wrap64 ((Nat.lor (toU64 x) (toU64 y) : Nat) : Int)

/-- Go `<<` on `int`: left shift with wraparound (shift count unbounded). -/
def shl64 (x : Int) (s : Nat) : Int := wrap64 (x * 2 ^ s)

/-- Go `>>` on `int`: arithmetic right shift, i.e. floor division by 2^s. -/
def sar64 (x : Int) (s : Nat) : Int := Int.fdiv x (2 ^ s)

/-- Go subtraction on `int`, wrapping. -/
def sub64 (x y : Int) : Int := wrap64 (x - y)

/-- Go addition on `int`, wrapping. -/
def add64 (x y : Int) : Int := wrap64 (x + y)

/-- Constant `maxUint8Length` from qrng.go. -/
def maxUint8Length : Nat := 1024

/-- Constant `maxUint16Length` from qrng.go. -/
def maxUint16Length : Nat := 1024

/-- Constant `maxBits = maxUint8Length * 8` from qrng.go. -/
def maxBits : Nat := maxUint8Length * 8

/-- The error values of qrng.go (`errors.New` variables and the `fmt.Errorf`
cases), as an inductive so each failure is a distinct inspectable value. -/
inductive ReqError where
  | invalidRange
  | rangeTooLarge
  | rangeTooLargeBits
  | missingAPIKey
  | invalidHexType
  | invalidBlockSize
  | invalidNumBits
  | invalidNumBytes
  | invalidNumShorts
  | apiError (msg : String)
  | apiFailed
  | insufficientData (expected : Int) (got : Nat)
  | outOfDraws
  | widthLoopDiverges
  deriving DecidableEq, Repr

/-- The `QRNGClient` struct: endpoint, API key and the authentication mode
flag.  (The HTTP transport handle carries no decision logic and is elided.) -/
structure QRNGClient where
  apiEndpoint : String
  apiKey : String
  useAPIKey : Bool
  deriving DecidableEq, Repr

/-- `NewClient`: legacy API client, no key required. -/
def newClient : QRNGClient :=
  { apiEndpoint := "https://qrng.anu.edu.au/API/jsonI.php"
    apiKey := ""
    useAPIKey := false }

/-- `NewClientWithAPIKey`: client for the authenticated API. -/
def newClientWithAPIKey (apiKey : String) : QRNGClient :=
  { apiEndpoint := "https://api.quantumnumbers.anu.edu.au"
    apiKey := apiKey
    useAPIKey := true }

/-- `requiresAPIKey` method. -/
def requiresAPIKey (c : QRNGClient) : Bool := c.useAPIKey

/-- The decoded JSON envelope (`QRNGResponse`).  Only the fields the client
logic reads are kept: `success`, `data`, `error`; the remaining envelope
fields (type, length, completionTime, seed, refresh, info) are carried
through by the code but never read. -/
structure QRNGResponse where
  success : Bool
  data : List Int
  error : String
  deriving DecidableEq, Repr

/-- The headers attached to the outgoing request (qrng.go lines 244-246):
the `x-api-key` header is added exactly when the client requires a key. -/
def requestHeaders (c : QRNGClient) : List (String × String) :=
  if requiresAPIKey c then [("x-api-key", c.apiKey)] else []

/-- `doRequest` after transport and JSON decoding succeeded: the API-key
guard, the success-flag check and the data-length check, in source order.
The wire envelope is passed in explicitly. -/
def doRequest (c : QRNGClient) (length : Int) (resp : QRNGResponse) :
    Except ReqError QRNGResponse :=
  if requiresAPIKey c && c.apiKey == "" then .error .missingAPIKey
  else if !resp.success then
    (if resp.error ≠ "" then .error (.apiError resp.error) else .error .apiFailed)
  else if (resp.data.length : Int) < length then
    .error (.insufficientData length resp.data.length)
  else .ok resp

/-- `convertUint8`: Go `uint8(v)` narrows each `int` to its low 8 bits. -/
def convertUint8 (data : List Int) : List Nat :=
  data.map (fun v => (v % (256 : Int)).toNat)

/-- `convertUint16`: Go `uint16(v)` narrows each `int` to its low 16 bits. -/
def convertUint16 (data : List Int) : List Nat :=
  data.map (fun v => (v % (65536 : Int)).toNat)

/-- `GetRandomUint8`. -/
def getRandomUint8 (c : QRNGClient) (numBytes : Int) (resp : QRNGResponse) :
    Except ReqError (List Nat) :=
  if numBytes < 1 ∨ numBytes > (maxUint8Length : Int) then .error .invalidNumBytes
  else
    match doRequest c numBytes resp with
    | .error e => .error e
    | .ok qr => .ok (convertUint8 qr.data)

/-- `GetRandomUint16`. -/
def getRandomUint16 (c : QRNGClient) (numShorts : Int) (resp : QRNGResponse) :
    Except ReqError (List Nat) :=
  if numShorts < 1 ∨ numShorts > (maxUint16Length : Int) then .error .invalidNumShorts
  else
    match doRequest c numShorts resp with
    | .error e => .error e
    | .ok qr => .ok (convertUint16 qr.data)

/-- Inner loop of `extractBits`: one byte, bit index `i` running 7 down to 0
(the argument counts remaining iterations, so `i+1` handles shift `i`).
Appends `(byteVal >> i) & 1` and returns early (flag `true`) once `numBits`
bits have been emitted. -/
def extractBitsByte (byteVal : Int) (numBits : Nat) : Nat → List Int → List Int × Bool
  | 0, bits => (bits, false)
  | i + 1, bits =>
    let bits2 := bits ++ [int64And (sar64 byteVal i) 1]
    if bits2.length = numBits then (bits2, true)
    else extractBitsByte byteVal numBits i bits2

/-- Outer loop of `extractBits` over the data bytes. -/
def extractBitsGo (numBits : Nat) : List Int → List Int → List Int
  | [], bits => bits
  | v :: rest, bits =>
    match extractBitsByte v numBits 8 bits with
    | (bits2, true) => bits2
    | (bits2, false) => extractBitsGo numBits rest bits2

/-- `extractBits` from qrng.go. -/
def extractBits (data : List Int) (numBits : Nat) : List Int :=
  extractBitsGo numBits data []

/-- `GetRandomBits`. -/
def getRandomBits (c : QRNGClient) (numBits : Int) (resp : QRNGResponse) :
    Except ReqError (List Int) :=
  if numBits < 1 ∨ numBits > (maxBits : Int) then .error .invalidNumBits
  else
    let requiredBytes : Nat := (numBits.toNat + 7) / 8
    match doRequest c (requiredBytes : Int) resp with
    | .error e => .error e
    | .ok qr => .ok (extractBits qr.data numBits.toNat)

/-- Minimal lowercase hex digits of `n`, most significant first (the digit
list produced by Go `%x` for a non-negative value); fuel-recursive. -/
def hexDigitsAux : Nat → Nat → List Char
  | 0, _ => []
  | fuel + 1, n =>
    if n = 0 then [] else hexDigitsAux fuel (n / 16) ++ [Nat.digitChar (n % 16)]

/-- Hex digit list of `n` (Go `%x`): "0" for zero, else minimal digits. -/
def hexDigits (n : Nat) : List Char :=
  if n = 0 then ['0'] else hexDigitsAux 256 n

/-- Zero padding to a minimum width (the `0` flag of `%0Nx`). -/
def padZeros (width : Nat) (cs : List Char) : List Char :=
  List.replicate (width - cs.length) '0' ++ cs

/-- Go `fmt.Sprintf("%0Nx", v)` for `int` v: lowercase hex, zero padded to a
minimum total width (the sign, when present, counts toward the width and
precedes the padding). -/
def sprintfHex (width : Nat) (v : Int) : String :=
  if v < 0 then String.mk ('-' :: padZeros (width - 1) (hexDigits (-v).toNat))
  else String.mk (padZeros width (hexDigits v.toNat))

/-- `formatHex` from qrng.go: width 4 for hex16, `blockSize*2` for hex8. -/
def formatHex (data : List Int) (hexType : String) (blockSize : Int) : List String :=
  let width : Nat := if hexType == "hex8" then blockSize.toNat * 2 else 4
  data.map (fun v => sprintfHex width v)

/-- `GetRandomHex`. -/
def getRandomHex (c : QRNGClient) (blockCount blockSize : Int) (hexType : String)
    (resp : QRNGResponse) : Except ReqError (List String) :=
  if hexType ≠ "hex8" ∧ hexType ≠ "hex16" then .error .invalidHexType
  else if blockSize < 1 ∨ blockSize > 10 then .error .invalidBlockSize
  else
    match doRequest c blockCount resp with
    | .error e => .error e
    | .ok qr => .ok (formatHex qr.data hexType blockSize)

/-- `bytesToInt`: big-endian assembly `result = (result << 8) | int(b)`. -/
def bytesToInt (bytes : List Nat) : Int :=
  bytes.foldl (fun result b => int64Or (shl64 result 8) (b : Int)) 0

/-- Fuel bound for the bit-width search loop of `GetRandomNumber`.  The Go
loop `for (1 << bitSize) < rangeSize` does not terminate when `rangeSize`
exceeds 2^62 (the shift wraps to a non-positive value forever); fuel
exhaustion models that divergence. -/
def loopFuel : Nat := 9000

/-- The bit-width search loop: starting at `bitSize`, increment while
`(1 << bitSize) < rangeSize` under Go shift semantics. -/
def bitSizeLoop (rangeSize : Int) : Nat → Nat → Option Nat
  | 0, _ => none
  | fuel + 1, bitSize =>
    if shl64 1 bitSize < rangeSize then bitSizeLoop rangeSize fuel (bitSize + 1)
    else some bitSize

/-- The validation and width-computation prefix of `GetRandomNumber`
(qrng.go lines 178-197): range check, wrapped range size, bit-width loop
(from 1), `maxBits` guard.  Returns the bit width and the range size. -/
def grnPlan (min max : Int) : Except ReqError (Nat × Int) :=
  if min > max then .error .invalidRange
  else
    let rangeSize := add64 (sub64 max min) 1
    if rangeSize ≤ 0 then .error .rangeTooLarge
    else
      match bitSizeLoop rangeSize loopFuel 1 with
      | none => .error .widthLoopDiverges
      | some bitSize =>
        if (maxBits : Nat) < bitSize then .error .rangeTooLargeBits
        else .ok (bitSize, rangeSize)

/-- The rejection-sampling loop of `GetRandomNumber`: one upstream envelope
per draw; accept when the masked value is below the range size. -/
def sampleLoop (c : QRNGClient) (min rangeSize : Int) (requiredBytes : Nat)
    (mask : Int) : List QRNGResponse → Except ReqError Int
  | [] => .error .outOfDraws
  | resp :: rest =>
    match getRandomUint8 c (requiredBytes : Int) resp with
    | .error e => .error e
    | .ok bytes =>
      let randInt := int64And (bytesToInt bytes) mask
      if randInt < rangeSize then .ok (add64 min randInt)
      else sampleLoop c min rangeSize requiredBytes mask rest

/-- `GetRandomNumber`: plan, then rejection-sample over the supplied draws
with `requiredBytes = (bitSize+7)/8` and `mask = (1 << bitSize) - 1`. -/
def getRandomNumber (c : QRNGClient) (min max : Int) (draws : List QRNGResponse) :
    Except ReqError Int :=
  match grnPlan min max with
  | .error e => .error e
  | .ok (bitSize, rangeSize) =>
    sampleLoop c min rangeSize ((bitSize + 7) / 8) (sub64 (shl64 1 bitSize) 1) draws

/-- The bits a single byte value contributes in source order when `i`
iterations of the inner loop of `extractBits` run to completion: shifts
`i-1` down to `0` of `(byteVal >> shift) & 1`. -/
def bitsFrom (v : Int) (i : Nat) : List Int :=
  (List.range i).reverse.map (fun s => int64And (sar64 v s) 1)

/-- The specification-side description of bit extraction, for the refinement
comparison of claim C4: the most-significant-bit-first unpacking of the
returned byte values, truncated to the first `n` bits.  Stated with
`Nat.testBit`, independently of the Go shift and mask combinators. -/
def unpackBitsSpec (data : List Int) (n : Nat) : List Int :=
  ((data.map (fun v => (List.range 8).map
    (fun j => if v.toNat.testBit (7 - j) then (1 : Int) else 0))).flatten).take n

/-! ### Arithmetic facts about the 64-bit wrapping model -/

theorem wrap64_eq_self {x : Int} (h1 : -(2 ^ 63) ≤ x) (h2 : x < 2 ^ 63) :
    wrap64 x = x := by
  unfold wrap64
  have h3 : (0 : Int) ≤ x + 2 ^ 63 := by linarith
  have h4 : x + 2 ^ 63 < 2 ^ 64 := by
    have : (2 : Int) ^ 64 = 2 ^ 63 + 2 ^ 63 := by norm_num
    linarith
  rw [Int.emod_eq_of_lt h3 h4]
  ring

theorem wrap64_lb (x : Int) : -(2 ^ 63) ≤ wrap64 x := by
  unfold wrap64
  have : (0 : Int) ≤ (x + 2 ^ 63) % 2 ^ 64 := Int.emod_nonneg (x + 2 ^ 63) (by norm_num)
  linarith

theorem wrap64_ub (x : Int) : wrap64 x < 2 ^ 63 := by
  unfold wrap64
  have : (x + 2 ^ 63) % 2 ^ 64 < 2 ^ 64 := Int.emod_lt_of_pos (x + 2 ^ 63) (by norm_num)
  have h : (2 : Int) ^ 64 = 2 ^ 63 + 2 ^ 63 := by norm_num
  linarith

theorem toU64_cast (x : Int) : (toU64 x : Int) = x % 2 ^ 64 := by
  unfold toU64
  exact Int.toNat_of_nonneg (Int.emod_nonneg x (by norm_num))

theorem toU64_lt (x : Int) : toU64 x < 2 ^ 64 := by
  have h : x % 2 ^ 64 < 2 ^ 64 := Int.emod_lt_of_pos x (by norm_num)
  have h2 : ((toU64 x : Nat) : Int) < ((2 ^ 64 : Nat) : Int) := by
    rw [toU64_cast]; push_cast; exact h
  exact_mod_cast h2

theorem land_mask_mod (u b : Nat) : Nat.land u (2 ^ b - 1) = u % 2 ^ b := by
  have h : Nat.land u (2 ^ b - 1) = u &&& (2 ^ b - 1) := rfl
  rw [h]
  apply Nat.eq_of_testBit_eq
  intro i
  rw [Nat.testBit_land, Nat.testBit_two_pow_sub_one, Nat.testBit_mod_two_pow]
  by_cases hib : i < b <;> simp [hib, Bool.and_comm]

theorem int64And_mask (x : Int) (b : Nat) (hb : b ≤ 63) :
    int64And x (2 ^ b - 1) = x % 2 ^ b := by
  unfold int64And
  have hbpos : (1 : Int) ≤ 2 ^ b := one_le_pow₀ (by norm_num)
  have hmlt : (2 : Int) ^ b - 1 < 2 ^ 64 := by
    have : (2 : Int) ^ b ≤ 2 ^ 63 := pow_le_pow_right₀ (by norm_num) hb
    have h2 : (2 : Int) ^ 63 < 2 ^ 64 := by norm_num
    linarith
  have hmask : toU64 ((2 : Int) ^ b - 1) = 2 ^ b - 1 := by
    have hcast : ((2 ^ b - 1 : Nat) : Int) = (2 : Int) ^ b - 1 := by
      push_cast [Nat.one_le_two_pow]; ring
    unfold toU64
    rw [Int.emod_eq_of_lt (by linarith) hmlt, ← hcast, Int.toNat_natCast]
  rw [hmask, land_mask_mod]
  have hmod_lt : toU64 x % 2 ^ b < 2 ^ b := Nat.mod_lt _ (Nat.pos_pow_of_pos b (by norm_num))
  have hcast2 : ((toU64 x % 2 ^ b : Nat) : Int) = (x % 2 ^ 64) % 2 ^ b := by
    rw [Int.natCast_mod, toU64_cast]; push_cast; ring_nf
  have hdvd : ((2 : Int) ^ b) ∣ 2 ^ 64 := pow_dvd_pow 2 (by omega)
  have hsmall : ((toU64 x % 2 ^ b : Nat) : Int) < 2 ^ 63 := by
    have h1 : ((toU64 x % 2 ^ b : Nat) : Int) < ((2 ^ b : Nat) : Int) := by exact_mod_cast hmod_lt
    have h2 : (((2 : Nat) ^ b : Nat) : Int) ≤ 2 ^ 63 := by
      push_cast
      exact pow_le_pow_right₀ (by norm_num) hb
    linarith
  rw [wrap64_eq_self (le_trans (by norm_num) (Int.natCast_nonneg _)) hsmall, hcast2,
    Int.emod_emod_of_dvd _ hdvd]

theorem shl64_one_small {b : Nat} (hb : b ≤ 62) : shl64 1 b = 2 ^ b := by
  unfold shl64
  rw [one_mul]
  apply wrap64_eq_self (le_trans (by norm_num) (le_of_lt (pow_pos (by norm_num) b)))
  have : (2 : Int) ^ b ≤ 2 ^ 62 := pow_le_pow_right₀ (by norm_num) hb
  have h2 : (2 : Int) ^ 62 < 2 ^ 63 := by norm_num
  linarith

theorem shl64_one_large {b : Nat} (hb : 63 ≤ b) : shl64 1 b ≤ 0 := by
  unfold shl64 wrap64
  rw [one_mul]
  rcases Nat.lt_or_ge b 64 with h64 | h64
  · have hb63 : b = 63 := by omega
    subst hb63
    norm_num
  · obtain ⟨k, hk⟩ : ∃ k, b = 64 + k := ⟨b - 64, by omega⟩
    subst hk
    have : (2 : Int) ^ (64 + k) + 2 ^ 63 = 2 ^ 63 + 2 ^ 64 * 2 ^ k := by ring
    rw [this, Int.add_mul_emod_self_left, Int.emod_eq_of_lt (by positivity) (by norm_num)]
    norm_num

/-! ### The bit-width search loop -/

theorem bitSizeLoop_stop {rangeSize : Int} :
    ∀ fuel start b, bitSizeLoop rangeSize fuel start = some b →
      start ≤ b ∧ ¬ shl64 1 b < rangeSize ∧
        ∀ j, start ≤ j → j < b → shl64 1 j < rangeSize := by
  intro fuel
  induction fuel with
  | zero => intro start b h; simp [bitSizeLoop] at h
  | succ n ih =>
    intro start b h
    rw [bitSizeLoop] at h
    by_cases hc : shl64 1 start < rangeSize
    · rw [if_pos hc] at h
      obtain ⟨hle, hstop, hall⟩ := ih (start + 1) b h
      refine ⟨by omega, hstop, ?_⟩
      intro j hj1 hj2
      rcases Nat.eq_or_lt_of_le hj1 with he | hlt
      · exact he ▸ hc
      · exact hall j hlt hj2
    · rw [if_neg hc] at h
      obtain rfl := Option.some.inj h
      exact ⟨le_refl _, hc, fun j hj1 hj2 => absurd (lt_of_le_of_lt hj1 hj2) (lt_irrefl _)⟩

theorem bitSizeLoop_bound {rangeSize : Int} {fuel start b : Nat}
    (hR : 0 < rangeSize) (h : bitSizeLoop rangeSize fuel start = some b) : b ≤ 62 := by
  obtain ⟨-, hstop, -⟩ := bitSizeLoop_stop fuel start b h
  by_contra hgt
  exact hstop (lt_of_le_of_lt (shl64_one_large (by omega)) hR)

theorem bitSizeLoop_term {rangeSize : Int} (hR62 : rangeSize ≤ 2 ^ 62) :
    ∀ fuel start, 1 ≤ start → start ≤ 62 → 62 - start < fuel →
      ∃ b, bitSizeLoop rangeSize fuel start = some b := by
  intro fuel
  induction fuel with
  | zero => intro start _ _ hf; omega
  | succ n ih =>
    intro start h1 h62 hf
    rw [bitSizeLoop]
    by_cases hc : shl64 1 start < rangeSize
    · rw [if_pos hc]
      have hpow : (2 : Int) ^ start < rangeSize := by
        rwa [shl64_one_small h62] at hc
      have hlt62 : start < 62 := by
        by_contra hge
        have : start = 62 := by omega
        subst this
        exact absurd (lt_of_lt_of_le hpow hR62) (lt_irrefl _)
      exact ih (start + 1) (by omega) (by omega) (by omega)
    · exact ⟨start, by rw [if_neg hc]⟩

/-! ### Range-size arithmetic of `GetRandomNumber` -/

theorem wrap64_high {x : Int} (h1 : 2 ^ 63 ≤ x) (h2 : x < 2 ^ 64) :
    wrap64 x = x - 2 ^ 64 := by
  unfold wrap64
  have hsplit : x + 2 ^ 63 = (x - 2 ^ 63) + 2 ^ 64 * 1 := by ring
  rw [hsplit, Int.add_mul_emod_self_left,
    Int.emod_eq_of_lt (by linarith) (by norm_num; linarith)]
  ring

theorem add64_sub64_of_lt {lo hi : Int} (hle : lo ≤ hi)
    (hsz : hi - lo + 1 < 2 ^ 63) : add64 (sub64 hi lo) 1 = hi - lo + 1 := by
  unfold add64 sub64
  have ha0 : (0 : Int) ≤ hi - lo := by linarith
  have hw1 : wrap64 (hi - lo) = hi - lo :=
    wrap64_eq_self (by linarith) (by linarith)
  rw [hw1]
  exact wrap64_eq_self (by linarith) hsz

theorem add64_sub64_nonpos {lo hi : Int} (hlo : -(2 ^ 63) ≤ lo) (hhi : hi < 2 ^ 63)
    (hle : lo ≤ hi) (hsz : 2 ^ 63 ≤ hi - lo + 1) : add64 (sub64 hi lo) 1 ≤ 0 := by
  unfold add64 sub64
  have hub : hi - lo < 2 ^ 64 := by
    have : (2 : Int) ^ 64 = 2 ^ 63 + 2 ^ 63 := by norm_num
    linarith
  rcases lt_or_ge (hi - lo) (2 ^ 63) with hcase | hcase
  · have ha : hi - lo = 2 ^ 63 - 1 := by omega
    have hw1 : wrap64 (hi - lo) = hi - lo :=
      wrap64_eq_self (by linarith) hcase
    rw [hw1, ha]
    have h2 : (2 : Int) ^ 63 - 1 + 1 = 2 ^ 63 := by ring
    rw [h2, wrap64_high (le_refl _) (by norm_num)]
    norm_num
  · have hw1 : wrap64 (hi - lo) = hi - lo - 2 ^ 64 := wrap64_high hcase hub
    rw [hw1]
    have hw2 : wrap64 (hi - lo - 2 ^ 64 + 1) = hi - lo - 2 ^ 64 + 1 :=
      wrap64_eq_self (by norm_num; linarith) (by norm_num; linarith)
    rw [hw2]
    linarith

theorem grnPlan_eq (lo hi : Int) : grnPlan lo hi =
    (if lo > hi then .error .invalidRange
     else if add64 (sub64 hi lo) 1 ≤ 0 then .error .rangeTooLarge
     else
       match bitSizeLoop (add64 (sub64 hi lo) 1) loopFuel 1 with
       | none => .error .widthLoopDiverges
       | some bitSize =>
         if (maxBits : Nat) < bitSize then .error .rangeTooLargeBits
         else .ok (bitSize, add64 (sub64 hi lo) 1)) := rfl

theorem grnPlan_ok {lo hi : Int} {b : Nat} {R : Int}
    (hlo : -(2 ^ 63) ≤ lo) (hhi : hi < 2 ^ 63)
    (h : grnPlan lo hi = .ok (b, R)) :
    lo ≤ hi ∧ R = hi - lo + 1 ∧ 0 < R ∧ b ≤ 62 := by
  rw [grnPlan_eq] at h
  by_cases h1 : lo > hi
  · rw [if_pos h1] at h; exact absurd h (by simp)
  rw [if_neg h1] at h
  have hle : lo ≤ hi := not_lt.mp h1
  by_cases h2 : add64 (sub64 hi lo) 1 ≤ 0
  · rw [if_pos h2] at h; exact absurd h (by simp)
  rw [if_neg h2] at h
  have hRval : add64 (sub64 hi lo) 1 = hi - lo + 1 := by
    rcases lt_or_ge (hi - lo + 1) (2 ^ 63) with hc | hc
    · exact add64_sub64_of_lt hle hc
    · exact absurd (add64_sub64_nonpos hlo hhi hle hc) h2
  cases hloop : bitSizeLoop (add64 (sub64 hi lo) 1) loopFuel 1 with
  | none => rw [hloop] at h; exact absurd h (by simp)
  | some b0 =>
    rw [hloop] at h
    dsimp only at h
    by_cases h3 : (maxBits : Nat) < b0
    · rw [if_pos h3] at h; exact absurd h (by simp)
    rw [if_neg h3] at h
    have hinj : b0 = b ∧ add64 (sub64 hi lo) 1 = R := by
      have := Except.ok.inj h
      exact ⟨congrArg Prod.fst this, congrArg Prod.snd this⟩
    obtain ⟨rfl, hR⟩ := hinj
    have hRpos : 0 < R := by rw [← hR]; exact lt_of_not_ge (fun hq => h2 (by linarith))
    refine ⟨hle, by rw [← hR, hRval], hRpos, ?_⟩
    exact bitSizeLoop_bound (by rw [hR]; exact hRpos) hloop

theorem grnPlan_ok_loop {lo hi : Int} {b : Nat} {R : Int}
    (h : grnPlan lo hi = .ok (b, R)) :
    bitSizeLoop R loopFuel 1 = some b := by
  rw [grnPlan_eq] at h
  by_cases h1 : lo > hi
  · rw [if_pos h1] at h; exact absurd h (by simp)
  rw [if_neg h1] at h
  by_cases h2 : add64 (sub64 hi lo) 1 ≤ 0
  · rw [if_pos h2] at h; exact absurd h (by simp)
  rw [if_neg h2] at h
  cases hloop : bitSizeLoop (add64 (sub64 hi lo) 1) loopFuel 1 with
  | none => rw [hloop] at h; exact absurd h (by simp)
  | some b0 =>
    rw [hloop] at h
    dsimp only at h
    by_cases h3 : (maxBits : Nat) < b0
    · rw [if_pos h3] at h; exact absurd h (by simp)
    rw [if_neg h3] at h
    have := Except.ok.inj h
    have hb : b0 = b := congrArg Prod.fst this
    have hR : add64 (sub64 hi lo) 1 = R := congrArg Prod.snd this
    rw [← hb, ← hR]
    exact hloop

/-! ### The rejection-sampling loop -/

theorem sampleLoop_ok {c : QRNGClient} {lo R : Int} {rb b : Nat} (hb : b ≤ 63) :
    ∀ (draws : List QRNGResponse) (v : Int),
      sampleLoop c lo R rb ((2 : Int) ^ b - 1) draws = .ok v →
      ∃ r : Int, 0 ≤ r ∧ r < 2 ^ b ∧ r < R ∧ v = add64 lo r := by
  intro draws
  induction draws with
  | nil => intro v h; exact absurd h (by simp [sampleLoop])
  | cons resp rest ih =>
    intro v h
    rw [sampleLoop] at h
    cases hreq : getRandomUint8 c (rb : Int) resp with
    | error e => rw [hreq] at h; exact absurd h (by simp)
    | ok bytes =>
      rw [hreq] at h
      simp only at h
      have hmask : int64And (bytesToInt bytes) ((2 : Int) ^ b - 1) =
          bytesToInt bytes % 2 ^ b := int64And_mask _ b hb
      by_cases hlt : int64And (bytesToInt bytes) ((2 : Int) ^ b - 1) < R
      · rw [if_pos hlt] at h
        refine ⟨int64And (bytesToInt bytes) ((2 : Int) ^ b - 1), ?_, ?_, hlt, ?_⟩
        · rw [hmask]; exact Int.emod_nonneg _ (by positivity)
        · rw [hmask]; exact Int.emod_lt_of_pos _ (by positivity)
        · exact (Except.ok.inj h).symm
      · rw [if_neg hlt] at h
        exact ih v h

/-- C1: for every min and max in the 64-bit integer range, whenever
`GetRandomNumber(min, max)` returns successfully, the returned value `v`
satisfies `min ≤ v ≤ max`, for every possible sequence of upstream byte
draws (the accepted masked draw is added to min).  The particular case
min=0, max=255, upstream byte 127 → 127 is the witness theorem. -/
theorem getRandomNumber_in_range (c : QRNGClient) (lo hi : Int)
    (draws : List QRNGResponse) (v : Int)
    (hlo : -(2 ^ 63) ≤ lo) (hhi : hi < 2 ^ 63)
    (hok : getRandomNumber c lo hi draws = .ok v) : lo ≤ v ∧ v ≤ hi := by
  unfold getRandomNumber at hok
  cases hplan : grnPlan lo hi with
  | error e => rw [hplan] at hok; exact absurd hok (by simp)
  | ok pr =>
    obtain ⟨b, R⟩ := pr
    rw [hplan] at hok
    simp only at hok
    obtain ⟨hle, hRval, hRpos, hb62⟩ := grnPlan_ok hlo hhi hplan
    have hmaskval : sub64 (shl64 1 b) 1 = (2 : Int) ^ b - 1 := by
      rw [shl64_one_small hb62]
      unfold sub64
      apply wrap64_eq_self
      · have : (1 : Int) ≤ 2 ^ b := one_le_pow₀ (by norm_num)
        linarith
      · have : (2 : Int) ^ b ≤ 2 ^ 62 := pow_le_pow_right₀ (by norm_num) hb62
        have h2 : (2 : Int) ^ 62 < 2 ^ 63 := by norm_num
        linarith
    rw [hmaskval] at hok
    obtain ⟨r, hr0, hrb, hrR, hv⟩ := sampleLoop_ok (by omega) draws v hok
    have hsum : lo ≤ lo + r ∧ lo + r ≤ hi := by
      constructor
      · linarith
      · have : r ≤ R - 1 := by linarith
        rw [hRval] at this
        linarith
    have hvval : v = lo + r := by
      rw [hv]
      unfold add64
      apply wrap64_eq_self
      · linarith
      · linarith [hsum.2]
    rw [hvval]
    exact hsum

/-- Witness for C1 at the spec's example: min=0, max=255 with upstream byte
127 yields exactly 127, and the bound theorem applies there. -/
theorem getRandomNumber_in_range_witness :
    getRandomNumber newClient 0 255 [⟨true, [127], ""⟩] = .ok 127 ∧
      (0 : Int) ≤ 127 ∧ (127 : Int) ≤ 255 := by
  refine ⟨rfl, ?_⟩
  exact getRandomNumber_in_range newClient 0 255 [⟨true, [127], ""⟩] 127
    (by norm_num) (by norm_num) rfl

/-! ### C2: the computed bit width -/

/-- C2, counterexample: the claim says the code computes the minimal bit
width b with 2^b ≥ rangeSize, in particular for rangeSize = 1.  It does not:
the loop starts at bitSize = 1, so for min = max = 0 (rangeSize 1) it
computes width 1, although b = 0 already satisfies 2^0 ≥ 1.  Hence the
computed width is not minimal among all b with 2^b ≥ rangeSize. -/
theorem grnPlan_width_not_minimal :
    grnPlan 0 0 = .ok (1, 1) ∧
      ¬ (∀ (b : Nat) (R : Int), grnPlan 0 0 = .ok (b, R) →
          ∀ j : Nat, R ≤ 2 ^ j → b ≤ j) := by
  refine ⟨rfl, fun hmin => ?_⟩
  have := hmin 1 1 rfl 0 (by norm_num)
  omega

/-- C2 as amended: for min ≤ max with rangeSize = max - min + 1 in
[1, 2^62], `GetRandomNumber` computes the minimal bit width b **with b ≥ 1**
such that 2^b ≥ rangeSize (for rangeSize ∈ {1,2} this is 1, not the
unrestricted minimum 0), and every draw requests `(b+7)/8 = ceil(b/8)`
bytes: the whole call runs the sampling loop at exactly that byte count. -/
theorem grnPlan_width_minimal_ge_one (lo hi : Int)
    (_hlo : -(2 ^ 63) ≤ lo) (_hhi : hi < 2 ^ 63) (hle : lo ≤ hi)
    (hsz : hi - lo + 1 ≤ 2 ^ 62) :
    ∃ b : Nat, grnPlan lo hi = .ok (b, hi - lo + 1) ∧ 1 ≤ b ∧
      hi - lo + 1 ≤ 2 ^ b ∧
      (∀ j : Nat, 1 ≤ j → hi - lo + 1 ≤ 2 ^ j → b ≤ j) ∧
      (∀ (c : QRNGClient) (draws : List QRNGResponse),
        getRandomNumber c lo hi draws =
          sampleLoop c lo (hi - lo + 1) ((b + 7) / 8) ((2 : Int) ^ b - 1) draws) := by
  have hRpos : (0 : Int) < hi - lo + 1 := by linarith
  have hRlt : hi - lo + 1 < 2 ^ 63 := by
    have : (2 : Int) ^ 62 < 2 ^ 63 := by norm_num
    linarith
  have hRval : add64 (sub64 hi lo) 1 = hi - lo + 1 := add64_sub64_of_lt hle hRlt
  obtain ⟨b, hloop⟩ :=
    @bitSizeLoop_term (hi - lo + 1) hsz loopFuel 1 (le_refl 1)
      (by norm_num) (by norm_num [loopFuel])
  have hb62 : b ≤ 62 := bitSizeLoop_bound hRpos hloop
  obtain ⟨hb1, hstop, hskip⟩ := bitSizeLoop_stop loopFuel 1 b hloop
  have hble : hi - lo + 1 ≤ 2 ^ b := by
    have := not_lt.mp hstop
    rwa [shl64_one_small hb62] at this
  have hplan : grnPlan lo hi = .ok (b, hi - lo + 1) := by
    rw [grnPlan_eq, if_neg (not_lt.mpr hle), hRval, if_neg (not_le.mpr hRpos), hloop]
    dsimp only
    rw [if_neg (by unfold maxBits maxUint8Length; omega)]
  refine ⟨b, hplan, hb1, hble, ?_, ?_⟩
  · intro j hj1 hjpow
    by_contra hjb
    have hjlt : j < b := by omega
    have := hskip j hj1 hjlt
    rw [shl64_one_small (by omega)] at this
    exact absurd hjpow (not_le.mpr this)
  · intro c draws
    unfold getRandomNumber
    rw [hplan]
    dsimp only
    congr 1
    rw [shl64_one_small hb62]
    unfold sub64
    apply wrap64_eq_self
    · have : (1 : Int) ≤ 2 ^ b := one_le_pow₀ (by norm_num)
      linarith
    · have : (2 : Int) ^ b ≤ 2 ^ 62 := pow_le_pow_right₀ (by norm_num) hb62
      have h2 : (2 : Int) ^ 62 < 2 ^ 63 := by norm_num
      linarith

/-- Witness for the amended C2 at min = 0, max = 0. -/
theorem grnPlan_width_minimal_ge_one_witness :
    ∃ b : Nat, grnPlan 0 0 = .ok (b, 0 - 0 + 1) ∧ 1 ≤ b ∧
      0 - 0 + 1 ≤ (2 : Int) ^ b ∧
      (∀ j : Nat, 1 ≤ j → 0 - 0 + 1 ≤ (2 : Int) ^ j → b ≤ j) ∧
      (∀ (c : QRNGClient) (draws : List QRNGResponse),
        getRandomNumber c 0 0 draws =
          sampleLoop c 0 (0 - 0 + 1) ((b + 7) / 8) ((2 : Int) ^ b - 1) draws) :=
  grnPlan_width_minimal_ge_one 0 0 (by norm_num) (by norm_num) (by norm_num)
    (by norm_num)

/-! ### C3: the invalid-argument region -/

/-- C3: for every min and max, `GetRandomNumber` returns the range error
when min > max, and the range-too-large error when max - min + 1 wraps to a
non-positive value; in both cases the result is this error for every
possible list of upstream draws, i.e. independent of the transport, so no
transport call is observed.  The third error condition of the claim (bit
width above 8192) never fires: the third conjunct shows every width the
loop can compute is at most 62 ≤ maxBits, so the claim holds vacuously
there. -/
theorem getRandomNumber_invalid_args :
    (∀ (c : QRNGClient) (lo hi : Int) (draws : List QRNGResponse),
      lo > hi → getRandomNumber c lo hi draws = .error .invalidRange) ∧
    (∀ (c : QRNGClient) (lo hi : Int) (draws : List QRNGResponse),
      ¬ lo > hi → add64 (sub64 hi lo) 1 ≤ 0 →
        getRandomNumber c lo hi draws = .error .rangeTooLarge) ∧
    (∀ (rangeSize : Int) (b : Nat), 0 < rangeSize →
      bitSizeLoop rangeSize loopFuel 1 = some b → b ≤ maxBits) := by
  refine ⟨?_, ?_, ?_⟩
  · intro c lo hi draws hgt
    unfold getRandomNumber
    rw [grnPlan_eq, if_pos hgt]
  · intro c lo hi draws hle hnp
    unfold getRandomNumber
    rw [grnPlan_eq, if_neg hle, if_pos hnp]
  · intro rangeSize b hpos hloop
    have := bitSizeLoop_bound hpos hloop
    unfold maxBits maxUint8Length
    omega

/-- Witness for C3: the spec's example min=10 > max=5 yields the range
error, and the overflowing range [-2^63, 2^63-1] yields range-too-large;
both independent of any draws. -/
theorem getRandomNumber_invalid_args_witness :
    getRandomNumber newClient 10 5 [] = .error .invalidRange ∧
      getRandomNumber newClient (-(2 ^ 63)) (2 ^ 63 - 1) [] = .error .rangeTooLarge := by
  constructor
  · exact getRandomNumber_invalid_args.1 newClient 10 5 [] (by norm_num)
  · exact getRandomNumber_invalid_args.2.1 newClient (-(2 ^ 63)) (2 ^ 63 - 1) []
      (by norm_num) (by decide)

/-! ### C4: bit extraction -/

theorem bitsFrom_length (v : Int) (i : Nat) : (bitsFrom v i).length = i := by
  simp [bitsFrom]

theorem bitsFrom_succ (v : Int) (i : Nat) :
    bitsFrom v (i + 1) = int64And (sar64 v i) 1 :: bitsFrom v i := by
  simp [bitsFrom, List.range_succ]

theorem extractBitsByte_no_stop (v : Int) (n : Nat) :
    ∀ (i : Nat) (bits : List Int), bits.length + i < n →
      extractBitsByte v n i bits = (bits ++ bitsFrom v i, false) := by
  intro i
  induction i with
  | zero => intro bits _; simp [extractBitsByte, bitsFrom]
  | succ i ih =>
    intro bits hlt
    rw [extractBitsByte]
    rw [if_neg (by simp only [List.length_append, List.length_cons, List.length_nil]; omega)]
    rw [ih (bits ++ [int64And (sar64 v i) 1]) (by simp; omega)]
    rw [bitsFrom_succ]
    simp

theorem extractBitsByte_stop (v : Int) (n : Nat) :
    ∀ (i : Nat) (bits : List Int), bits.length < n → n ≤ bits.length + i →
      extractBitsByte v n i bits = (bits ++ (bitsFrom v i).take (n - bits.length), true) := by
  intro i
  induction i with
  | zero => intro bits h1 h2; omega
  | succ i ih =>
    intro bits h1 h2
    rw [extractBitsByte]
    by_cases he : bits.length + 1 = n
    · rw [if_pos (by simp only [List.length_append, List.length_cons, List.length_nil]; omega)]
      rw [bitsFrom_succ]
      have hn : n - bits.length = 1 := by omega
      rw [hn]
      simp
    · rw [if_neg (by simp only [List.length_append, List.length_cons, List.length_nil]; omega)]
      rw [ih (bits ++ [int64And (sar64 v i) 1]) (by simp; omega) (by simp; omega)]
      rw [bitsFrom_succ]
      have hn : n - bits.length = (n - (bits.length + 1)) + 1 := by omega
      rw [hn]
      simp [List.take_succ_cons]

theorem extractBitsGo_eq (n : Nat) :
    ∀ (data : List Int) (bits : List Int), bits.length < n →
      extractBitsGo n data bits =
        bits ++ ((data.map (fun v => bitsFrom v 8)).flatten).take (n - bits.length) := by
  intro data
  induction data with
  | nil => intro bits _; simp [extractBitsGo]
  | cons v rest ih =>
    intro bits hlt
    rw [extractBitsGo]
    by_cases hc : bits.length + 8 < n
    · rw [extractBitsByte_no_stop v n 8 bits hc]
      simp only
      rw [ih (bits ++ bitsFrom v 8) (by rw [List.length_append, bitsFrom_length]; omega)]
      have htake : List.take (n - bits.length) (bitsFrom v 8) = bitsFrom v 8 :=
        List.take_of_length_le (by rw [bitsFrom_length]; omega)
      simp only [List.map_cons, List.flatten_cons, List.take_append_eq_append_take,
        bitsFrom_length, htake, List.length_append, List.append_assoc]
      rw [show n - bits.length - 8 = n - (bits.length + 8) from by omega]
    · rw [extractBitsByte_stop v n 8 bits hlt (by omega)]
      simp only [List.map_cons, List.flatten_cons, List.take_append_eq_append_take,
        bitsFrom_length]
      have : n - bits.length - 8 = 0 := by omega
      rw [this]
      simp

theorem extractBits_take (data : List Int) (n : Nat) (hn : 0 < n) :
    extractBits data n = ((data.map (fun v => bitsFrom v 8)).flatten).take n := by
  unfold extractBits
  rw [extractBitsGo_eq n data [] (by simpa)]
  simp

theorem toU64_ofNat {n : Nat} (h : n < 2 ^ 64) : toU64 (n : Int) = n := by
  unfold toU64
  rw [Int.emod_eq_of_lt (Int.natCast_nonneg n) (by exact_mod_cast h), Int.toNat_natCast]

theorem int64And_one (x : Int) : int64And x 1 = 0 ∨ int64And x 1 = 1 := by
  unfold int64And
  have h1 : toU64 1 = 1 := by decide
  rw [h1]
  have h2 : Nat.land (toU64 x) 1 = toU64 x % 2 := Nat.and_one_is_mod _
  rw [h2]
  rcases Nat.mod_two_eq_zero_or_one (toU64 x) with h | h <;> rw [h]
  · left; decide
  · right; decide

theorem int64And_cast_one {k : Nat} (h : k < 2 ^ 64) :
    int64And (k : Int) 1 = ((k % 2 : Nat) : Int) := by
  unfold int64And
  have h1 : toU64 1 = 1 := by decide
  have h2 : Nat.land k 1 = k % 2 := Nat.and_one_is_mod k
  rw [h1, toU64_ofNat h, h2]
  apply wrap64_eq_self (le_trans (by norm_num) (Int.natCast_nonneg _))
  have : k % 2 < 2 := Nat.mod_lt _ (by norm_num)
  have h2 : ((k % 2 : Nat) : Int) < 2 := by exact_mod_cast this
  linarith

theorem bit_eq_testBit {v : Int} (hv0 : 0 ≤ v) (hv : v < 256) (s : Nat) :
    int64And (sar64 v s) 1 = if v.toNat.testBit s then 1 else 0 := by
  have hfd : sar64 v s = ((v.toNat / 2 ^ s : Nat) : Int) := by
    unfold sar64
    rw [Int.fdiv_eq_ediv _ (by positivity)]
    conv_lhs => rw [← Int.toNat_of_nonneg hv0]
    rw [show ((2 : Int) ^ s) = ((2 ^ s : Nat) : Int) from by push_cast; ring]
    rw [← Int.ofNat_ediv]
  have hk : v.toNat / 2 ^ s < 2 ^ 64 := by
    have hvn : v.toNat < 256 := by
      have := Int.toNat_lt hv0 |>.mpr hv
      simpa using this
    have : v.toNat / 2 ^ s ≤ v.toNat := Nat.div_le_self _ _
    omega
  rw [hfd, int64And_cast_one hk]
  rw [Nat.testBit_to_div_mod]
  rcases Nat.mod_two_eq_zero_or_one (v.toNat / 2 ^ s) with h | h <;> rw [h] <;> simp [h]

theorem bitsFrom_eight_spec {v : Int} (hv0 : 0 ≤ v) (hv : v < 256) :
    bitsFrom v 8 =
      (List.range 8).map (fun j => if v.toNat.testBit (7 - j) then (1 : Int) else 0) := by
  have h := bit_eq_testBit hv0 hv
  rw [show List.range 8 = [0, 1, 2, 3, 4, 5, 6, 7] from rfl]
  simp only [bitsFrom, show List.range 8 = [0, 1, 2, 3, 4, 5, 6, 7] from rfl]
  simp only [List.reverse_cons, List.reverse_nil, List.nil_append, List.cons_append,
    List.map_cons, List.map_nil, List.singleton_append]
  rw [h 0, h 1, h 2, h 3, h 4, h 5, h 6, h 7]

theorem bitsFrom_flatten_length (data : List Int) :
    ((data.map (fun v => bitsFrom v 8)).flatten).length = 8 * data.length := by
  induction data with
  | nil => simp
  | cons v rest ih =>
    simp only [List.map_cons, List.flatten_cons, List.length_append, bitsFrom_length, ih,
      List.length_cons]
    ring

/-- C4: for every n in [1, 8192] and every upstream envelope supplying at
least ceil(n/8) byte values, `GetRandomBits(n)` requests ceil(n/8) = (n+7)/8
uint8 values (that is the length `doRequest` validates the envelope
against) and returns exactly n elements, each 0 or 1, equal to the
most-significant-bit-first unpacking of the returned bytes truncated to the
first n bits. -/
theorem getRandomBits_spec (c : QRNGClient) (n : Nat) (resp : QRNGResponse)
    (hkey : requiresAPIKey c = true → c.apiKey ≠ "")
    (hn1 : 1 ≤ n) (hn2 : n ≤ 8192)
    (hsucc : resp.success = true)
    (hlen : (n + 7) / 8 ≤ resp.data.length)
    (hbytes : ∀ v ∈ resp.data, 0 ≤ v ∧ v < 256) :
    ∃ bits, getRandomBits c (n : Int) resp = .ok bits ∧
      bits.length = n ∧ (∀ b ∈ bits, b = 0 ∨ b = 1) ∧
      bits = unpackBitsSpec resp.data n := by
  have hnk : (requiresAPIKey c && c.apiKey == "") = false := by
    cases hck : requiresAPIKey c with
    | false => simp
    | true =>
      simp only [Bool.true_and]
      exact beq_eq_false_iff_ne.mpr (hkey hck)
  have hlen2 : ¬ ((resp.data.length : Int) < (((n + 7) / 8 : Nat) : Int)) := by
    omega
  have hreq : doRequest c (((n + 7) / 8 : Nat) : Int) resp = .ok resp := by
    simp only [doRequest, hnk, hsucc, Bool.false_eq_true, if_false, Bool.not_true,
      if_neg hlen2]
  have hmain : getRandomBits c (n : Int) resp = .ok (extractBits resp.data n) := by
    unfold getRandomBits
    rw [if_neg (by unfold maxBits maxUint8Length; omega)]
    simp only [Int.toNat_natCast]
    rw [hreq]
  refine ⟨extractBits resp.data n, hmain, ?_, ?_, ?_⟩
  · rw [extractBits_take resp.data n (by omega), List.length_take,
      bitsFrom_flatten_length]
    have : n ≤ 8 * resp.data.length := by omega
    omega
  · intro b hb
    rw [extractBits_take resp.data n (by omega)] at hb
    have hb2 := List.mem_of_mem_take hb
    obtain ⟨l, hl, hbl⟩ := List.mem_flatten.mp hb2
    obtain ⟨v, _, rfl⟩ := List.mem_map.mp hl
    unfold bitsFrom at hbl
    obtain ⟨s, _, rfl⟩ := List.mem_map.mp hbl
    exact int64And_one _
  · rw [extractBits_take resp.data n (by omega)]
    unfold unpackBitsSpec
    have hmap : resp.data.map (fun v => bitsFrom v 8) =
        resp.data.map (fun v => (List.range 8).map
          (fun j => if v.toNat.testBit (7 - j) then (1 : Int) else 0)) :=
      List.map_congr_left fun v hv => bitsFrom_eight_spec (hbytes v hv).1 (hbytes v hv).2
    rw [hmap]

/-- Witness for C4 at the spec's example: n = 8 with upstream byte 255
yields eight 1 bits. -/
theorem getRandomBits_spec_witness :
    (∃ bits, getRandomBits newClient (8 : Nat) ⟨true, [255], ""⟩ = .ok bits ∧
        bits.length = 8 ∧ (∀ b ∈ bits, b = 0 ∨ b = 1) ∧
        bits = unpackBitsSpec [255] 8) ∧
      getRandomBits newClient 8 ⟨true, [255], ""⟩ = .ok [1, 1, 1, 1, 1, 1, 1, 1] := by
  constructor
  · exact getRandomBits_spec newClient 8 ⟨true, [255], ""⟩ (by decide) (by norm_num)
      (by norm_num) rfl (by norm_num) (by decide)
  · rfl

/-! ### Decoding helpers shared by the remaining claims -/

theorem apiKeyGuard_false {c : QRNGClient} (hkey : requiresAPIKey c = true → c.apiKey ≠ "") :
    (requiresAPIKey c && c.apiKey == "") = false := by
  cases hck : requiresAPIKey c with
  | false => simp
  | true =>
    simp only [Bool.true_and]
    exact beq_eq_false_iff_ne.mpr (hkey hck)

theorem doRequest_ok {c : QRNGClient} {length : Int} {resp : QRNGResponse}
    (hkey : requiresAPIKey c = true → c.apiKey ≠ "") (hsucc : resp.success = true)
    (hlen : ¬ ((resp.data.length : Int) < length)) :
    doRequest c length resp = .ok resp := by
  simp only [doRequest, apiKeyGuard_false hkey, hsucc, Bool.false_eq_true, if_false,
    Bool.not_true, if_neg hlen]

/-! ### C5: hex formatting width -/

theorem hexDigitsAux_len :
    ∀ (fuel n k : Nat), n < 16 ^ k → k ≤ fuel → (hexDigitsAux fuel n).length ≤ k := by
  intro fuel
  induction fuel with
  | zero => intro n k _ _; simp [hexDigitsAux]
  | succ f ih =>
    intro n k h hk
    rw [hexDigitsAux]
    by_cases hn : n = 0
    · rw [if_pos hn]; simp
    · rw [if_neg hn, List.length_append]
      simp only [List.length_cons, List.length_nil]
      have hk1 : 1 ≤ k := by
        by_contra hk0
        have hz : k = 0 := by omega
        subst hz
        simp at h
        omega
      have h16 : (16 : Nat) ^ k = 16 ^ (k - 1) * 16 := by
        conv_lhs => rw [show k = (k - 1) + 1 from by omega]
        ring
      have hdiv : n / 16 < 16 ^ (k - 1) := by
        rw [Nat.div_lt_iff_lt_mul (by norm_num)]
        omega
      have := ih (n / 16) (k - 1) hdiv (by omega)
      omega

theorem hexDigits_len {n k : Nat} (h : n < 16 ^ k) (hk1 : 1 ≤ k) (hk : k ≤ 256) :
    (hexDigits n).length ≤ k := by
  unfold hexDigits
  by_cases hn : n = 0
  · rw [if_pos hn]; simpa using hk1
  · rw [if_neg hn]
    exact hexDigitsAux_len 256 n k h hk

theorem sprintfHex_len {w : Nat} {v : Int} (h0 : 0 ≤ v) (hlt : v < (16 : Int) ^ w)
    (hw1 : 1 ≤ w) (hw : w ≤ 256) : (sprintfHex w v).length = w := by
  unfold sprintfHex
  rw [if_neg (not_lt.mpr h0)]
  have hsl : ∀ cs : List Char, (String.mk cs).length = cs.length := fun cs => rfl
  rw [hsl]
  unfold padZeros
  rw [List.length_append, List.length_replicate]
  have hnat : v.toNat < 16 ^ w := by
    have hc : ((16 ^ w : Nat) : Int) = (16 : Int) ^ w := by push_cast; ring
    exact (Int.toNat_lt h0).mpr (by rw [hc]; exact hlt)
  have := hexDigits_len hnat hw1 hw
  omega

theorem formatHex_hex16 (data : List Int) (bs : Int) :
    formatHex data "hex16" bs = data.map (fun v => sprintfHex 4 v) := rfl

theorem formatHex_hex8 (data : List Int) (bs : Int) :
    formatHex data "hex8" bs = data.map (fun v => sprintfHex (bs.toNat * 2) v) := rfl

/-- C5, counterexample: the claim fixes the hex16 width at exactly 4 digits
for every integer in the upstream data, but zero padding only imposes a
minimum width: upstream value 65536 is formatted as the five-digit string
"10000". -/
theorem getRandomHex_width_not_fixed :
    getRandomHex newClient 1 4 "hex16" ⟨true, [65536], ""⟩ = .ok ["10000"] ∧
      ¬ ("10000".length = 4) := by
  exact ⟨rfl, by decide⟩

/-- C5 as amended: the format width is a minimum imposed by zero padding;
the width is exactly 4 hex digits for the hex16 variant and exactly
2*blockSize for the hex8 variant whenever the formatted integer fits that
width (is in [0, 16^width)); larger values produce longer strings.  The
spec example [32767, 65535] with hex16 yields ["7fff","ffff"]. -/
theorem getRandomHex_width :
    (∀ (c : QRNGClient) (blockCount blockSize : Int) (resp : QRNGResponse),
      (requiresAPIKey c = true → c.apiKey ≠ "") → resp.success = true →
      1 ≤ blockSize → blockSize ≤ 10 →
      ¬ ((resp.data.length : Int) < blockCount) →
      (∀ v ∈ resp.data, 0 ≤ v ∧ v < 65536) →
      ∃ out, getRandomHex c blockCount blockSize "hex16" resp = .ok out ∧
        out.length = resp.data.length ∧ ∀ sH ∈ out, sH.length = 4) ∧
    (∀ (c : QRNGClient) (blockCount blockSize : Int) (resp : QRNGResponse),
      (requiresAPIKey c = true → c.apiKey ≠ "") → resp.success = true →
      1 ≤ blockSize → blockSize ≤ 10 →
      ¬ ((resp.data.length : Int) < blockCount) →
      (∀ v ∈ resp.data, 0 ≤ v ∧ v < (16 : Int) ^ (blockSize.toNat * 2)) →
      ∃ out, getRandomHex c blockCount blockSize "hex8" resp = .ok out ∧
        out.length = resp.data.length ∧ ∀ sH ∈ out, sH.length = blockSize.toNat * 2) ∧
    getRandomHex (newClientWithAPIKey "---") 2 4 "hex16" ⟨true, [32767, 65535], ""⟩ =
      .ok ["7fff", "ffff"] := by
  refine ⟨?_, ?_, rfl⟩
  · intro c blockCount blockSize resp hkey hsucc hbs1 hbs2 hlen hvals
    refine ⟨formatHex resp.data "hex16" blockSize, ?_, ?_, ?_⟩
    · unfold getRandomHex
      rw [if_neg (by simp), if_neg (by omega), doRequest_ok hkey hsucc hlen]
    · rw [formatHex_hex16]; simp
    · intro sH hs
      rw [formatHex_hex16] at hs
      obtain ⟨v, hv, rfl⟩ := List.mem_map.mp hs
      exact sprintfHex_len (hvals v hv).1
        (by have := (hvals v hv).2; norm_num; linarith) (by norm_num) (by norm_num)
  · intro c blockCount blockSize resp hkey hsucc hbs1 hbs2 hlen hvals
    refine ⟨formatHex resp.data "hex8" blockSize, ?_, ?_, ?_⟩
    · unfold getRandomHex
      rw [if_neg (by simp), if_neg (by omega), doRequest_ok hkey hsucc hlen]
    · rw [formatHex_hex8]; simp
    · intro sH hs
      rw [formatHex_hex8] at hs
      obtain ⟨v, hv, rfl⟩ := List.mem_map.mp hs
      have hbsn : 1 ≤ blockSize.toNat := by omega
      exact sprintfHex_len (hvals v hv).1 (hvals v hv).2 (by omega) (by omega)

/-- Witness for the amended C5 at the spec example envelope. -/
theorem getRandomHex_width_witness :
    ∃ out, getRandomHex (newClientWithAPIKey "---") 2 4 "hex16"
        ⟨true, [32767, 65535], ""⟩ = .ok out ∧
      out.length = ([32767, 65535] : List Int).length ∧ ∀ sH ∈ out, sH.length = 4 :=
  getRandomHex_width.1 (newClientWithAPIKey "---") 2 4 ⟨true, [32767, 65535], ""⟩
    (by decide) rfl (by norm_num) (by norm_num) (by norm_num) (by decide)

/-! ### C6: hex argument validation -/

/-- C6: for every blockCount, blockSize and hexType, an unrecognized type
tag fails with the invalid-type error, and (the checks run in source order:
with a recognized type) a block size outside [1,10] fails with the
invalid-block-size error; in both cases for every envelope, so no network
call is involved. -/
theorem getRandomHex_arg_errors :
    (∀ (c : QRNGClient) (blockCount blockSize : Int) (hexType : String)
        (resp : QRNGResponse),
      hexType ≠ "hex8" → hexType ≠ "hex16" →
        getRandomHex c blockCount blockSize hexType resp = .error .invalidHexType) ∧
    (∀ (c : QRNGClient) (blockCount blockSize : Int) (hexType : String)
        (resp : QRNGResponse),
      (hexType = "hex8" ∨ hexType = "hex16") → (blockSize < 1 ∨ blockSize > 10) →
        getRandomHex c blockCount blockSize hexType resp = .error .invalidBlockSize) := by
  constructor
  · intro c blockCount blockSize hexType resp h1 h2
    unfold getRandomHex
    rw [if_pos ⟨h1, h2⟩]
  · intro c blockCount blockSize hexType resp ht hbs
    unfold getRandomHex
    rw [if_neg (by rcases ht with rfl | rfl <;> simp), if_pos hbs]

/-- Witness for C6: "hex32" fails with the invalid-type error and block
size 11 with "hex8" fails with the invalid-block-size error. -/
theorem getRandomHex_arg_errors_witness :
    getRandomHex (newClientWithAPIKey "---") 1 2 "hex32" ⟨true, [], ""⟩ =
        .error .invalidHexType ∧
      getRandomHex (newClientWithAPIKey "---") 1 11 "hex8" ⟨true, [], ""⟩ =
        .error .invalidBlockSize :=
  ⟨getRandomHex_arg_errors.1 (newClientWithAPIKey "---") 1 2 "hex32" ⟨true, [], ""⟩
      (by decide) (by decide),
    getRandomHex_arg_errors.2 (newClientWithAPIKey "---") 1 11 "hex8" ⟨true, [], ""⟩
      (Or.inl rfl) (by norm_num)⟩

/-! ### C7: API-key handling -/

/-- C7: a request through an authenticated client with an empty credential
fails with the missing-API-key error for every envelope (so before any
network call); with a non-empty credential, the built request carries the
x-api-key header with exactly the configured credential; a legacy
(unauthenticated) client attaches no header. -/
theorem apiKey_handling :
    (∀ (len : Int) (resp : QRNGResponse),
      doRequest (newClientWithAPIKey "") len resp = .error .missingAPIKey) ∧
    (∀ (c : QRNGClient) (len : Int) (resp : QRNGResponse),
      requiresAPIKey c = true → c.apiKey = "" →
        doRequest c len resp = .error .missingAPIKey) ∧
    (∀ (numShorts : Int) (resp : QRNGResponse), 1 ≤ numShorts → numShorts ≤ 1024 →
      getRandomUint16 (newClientWithAPIKey "") numShorts resp = .error .missingAPIKey) ∧
    (∀ k : String, k ≠ "" →
      requestHeaders (newClientWithAPIKey k) = [("x-api-key", k)]) ∧
    requestHeaders newClient = [] := by
  have hgen : ∀ (c : QRNGClient) (len : Int) (resp : QRNGResponse),
      requiresAPIKey c = true → c.apiKey = "" →
        doRequest c len resp = .error .missingAPIKey := by
    intro c len resp h1 h2
    unfold doRequest
    rw [if_pos (by rw [h1, h2]; rfl)]
  refine ⟨?_, hgen, ?_, ?_, rfl⟩
  · intro len resp
    exact hgen (newClientWithAPIKey "") len resp rfl rfl
  · intro numShorts resp h1 h2
    unfold getRandomUint16
    rw [if_neg (by unfold maxUint16Length; omega)]
    rw [hgen (newClientWithAPIKey "") numShorts resp rfl rfl]
  · intro k _
    rfl

/-- Witness for C7 at concrete inputs. -/
theorem apiKey_handling_witness :
    doRequest (newClientWithAPIKey "") 1 ⟨true, [42], ""⟩ = .error .missingAPIKey ∧
      getRandomUint16 (newClientWithAPIKey "") 1 ⟨true, [42], ""⟩ =
        .error .missingAPIKey ∧
      requestHeaders (newClientWithAPIKey "---") = [("x-api-key", "---")] :=
  ⟨apiKey_handling.1 1 ⟨true, [42], ""⟩,
    apiKey_handling.2.2.1 1 ⟨true, [42], ""⟩ (by norm_num) (by norm_num),
    apiKey_handling.2.2.2.1 "---" (by decide)⟩

/-! ### C8: envelope decode failures -/

/-- C8: an envelope with success=false yields the api-error value carrying
the embedded message when present and the generic failure otherwise; a
short data array with success=true yields exactly the insufficient-data
decode error (so short data yields a decode error regardless of the success
flag: with success=false it is the api-error/failure of the first two
conjuncts); and a short-data envelope never produces a success result for
any client, so no data is ever returned alongside an error. -/
theorem doRequest_decode_errors :
    (∀ (c : QRNGClient) (len : Int) (resp : QRNGResponse),
      (requiresAPIKey c = true → c.apiKey ≠ "") → resp.success = false →
      resp.error ≠ "" → doRequest c len resp = .error (.apiError resp.error)) ∧
    (∀ (c : QRNGClient) (len : Int) (resp : QRNGResponse),
      (requiresAPIKey c = true → c.apiKey ≠ "") → resp.success = false →
      resp.error = "" → doRequest c len resp = .error .apiFailed) ∧
    (∀ (c : QRNGClient) (len : Int) (resp : QRNGResponse),
      (requiresAPIKey c = true → c.apiKey ≠ "") → resp.success = true →
      (resp.data.length : Int) < len →
        doRequest c len resp = .error (.insufficientData len resp.data.length)) ∧
    (∀ (c : QRNGClient) (len : Int) (resp : QRNGResponse) (qr : QRNGResponse),
      (resp.data.length : Int) < len → doRequest c len resp ≠ .ok qr) := by
  refine ⟨?_, ?_, ?_, ?_⟩
  · intro c len resp hkey hfail herr
    simp only [doRequest, apiKeyGuard_false hkey, hfail, Bool.false_eq_true, if_false,
      Bool.not_false, if_true, if_pos herr]
  · intro c len resp hkey hfail herr
    simp only [doRequest, apiKeyGuard_false hkey, hfail, Bool.false_eq_true, if_false,
      Bool.not_false, if_true, herr, ne_eq, not_true_eq_false, if_neg]
  · intro c len resp hkey hsucc hlen
    simp only [doRequest, apiKeyGuard_false hkey, hsucc, Bool.false_eq_true, if_false,
      Bool.not_true, if_pos hlen]
  · intro c len resp qr hlen
    unfold doRequest
    by_cases h1 : (requiresAPIKey c && c.apiKey == "") = true
    · rw [if_pos h1]; simp
    · rw [if_neg h1]
      cases h2 : resp.success with
      | false =>
        simp only [h2, Bool.not_false, if_true]
        by_cases h3 : resp.error ≠ "" <;> simp [h3]
      | true =>
        simp only [h2, Bool.not_true, Bool.false_eq_true, if_false]
        rw [if_pos hlen]
        simp

/-- Witness for C8 at concrete envelopes: embedded message surfaced,
generic failure without one, and one item short of a requested two yields
the insufficient-data error and never a success. -/
theorem doRequest_decode_errors_witness :
    doRequest newClient 1 ⟨false, [1], "server overload"⟩ =
        .error (.apiError "server overload") ∧
      doRequest newClient 1 ⟨false, [1], ""⟩ = .error .apiFailed ∧
      doRequest newClient 2 ⟨true, [1], ""⟩ = .error (.insufficientData 2 1) ∧
      doRequest newClient 2 ⟨true, [1], ""⟩ ≠ .ok ⟨true, [1], ""⟩ :=
  ⟨doRequest_decode_errors.1 newClient 1 ⟨false, [1], "server overload"⟩
      (by decide) rfl (by decide),
    doRequest_decode_errors.2.1 newClient 1 ⟨false, [1], ""⟩ (by decide) rfl rfl,
    doRequest_decode_errors.2.2.1 newClient 2 ⟨true, [1], ""⟩ (by decide) rfl
      (by norm_num),
    doRequest_decode_errors.2.2.2 newClient 2 ⟨true, [1], ""⟩ ⟨true, [1], ""⟩
      (by norm_num)⟩

/-! ### C9: narrowing conversions truncate -/

/-- C9, counterexample: the claim requires a validation/decode error when
an upstream integer exceeds the target width; instead the conversions
silently truncate: upstream 256 succeeds as the uint8 value 0, and
upstream 65536 succeeds as the uint16 value 0. -/
theorem convert_silently_truncates :
    getRandomUint8 newClient 1 ⟨true, [256], ""⟩ = .ok [0] ∧
      getRandomUint16 newClient 1 ⟨true, [65536], ""⟩ = .ok [0] := ⟨rfl, rfl⟩

/-- C9 as amended: out-of-range upstream integers are not rejected;
`GetRandomUint8` succeeds and narrows every value to its low 8 bits
(value mod 2^8) and `GetRandomUint16` to its low 16 bits (value mod 2^16),
silently masking upstream protocol drift. -/
theorem convert_narrowing_mod (c : QRNGClient) (num : Int) (resp : QRNGResponse)
    (hkey : requiresAPIKey c = true → c.apiKey ≠ "") (hsucc : resp.success = true)
    (h1 : 1 ≤ num) (h2 : num ≤ 1024)
    (hlen : ¬ ((resp.data.length : Int) < num)) :
    getRandomUint8 c num resp = .ok (resp.data.map (fun v => (v % (256 : Int)).toNat)) ∧
      getRandomUint16 c num resp =
        .ok (resp.data.map (fun v => (v % (65536 : Int)).toNat)) := by
  constructor
  · unfold getRandomUint8
    rw [if_neg (by unfold maxUint8Length; omega), doRequest_ok hkey hsucc hlen]
    rfl
  · unfold getRandomUint16
    rw [if_neg (by unfold maxUint16Length; omega), doRequest_ok hkey hsucc hlen]
    rfl

/-- Witness for the amended C9: upstream [256] narrows to [0] for uint8 and
upstream [65536] narrows to [0] for uint16. -/
theorem convert_narrowing_mod_witness :
    getRandomUint8 newClient 1 ⟨true, [256], ""⟩ =
        .ok (([256] : List Int).map (fun v => (v % (256 : Int)).toNat)) ∧
      getRandomUint16 newClient 1 ⟨true, [256], ""⟩ =
        .ok (([256] : List Int).map (fun v => (v % (65536 : Int)).toNat)) :=
  convert_narrowing_mod newClient 1 ⟨true, [256], ""⟩ (by decide) rfl (by norm_num)
    (by norm_num) (by norm_num)

/-! ### C10: result length follows the data array -/

/-- C10: on success, the lengths of the sequences returned by
`GetRandomUint8`, `GetRandomUint16` and `GetRandomHex` equal the length of
the upstream data array, not the requested count; the decoder only checks
`len(data) >= requested`, so extra items are all included. -/
theorem result_length_eq_data_length :
    (∀ (c : QRNGClient) (num : Int) (resp : QRNGResponse),
      (requiresAPIKey c = true → c.apiKey ≠ "") → resp.success = true →
      1 ≤ num → num ≤ 1024 → ¬ ((resp.data.length : Int) < num) →
      ∃ out, getRandomUint8 c num resp = .ok out ∧ out.length = resp.data.length) ∧
    (∀ (c : QRNGClient) (num : Int) (resp : QRNGResponse),
      (requiresAPIKey c = true → c.apiKey ≠ "") → resp.success = true →
      1 ≤ num → num ≤ 1024 → ¬ ((resp.data.length : Int) < num) →
      ∃ out, getRandomUint16 c num resp = .ok out ∧ out.length = resp.data.length) ∧
    (∀ (c : QRNGClient) (blockCount blockSize : Int) (hexType : String)
        (resp : QRNGResponse),
      (requiresAPIKey c = true → c.apiKey ≠ "") → resp.success = true →
      (hexType = "hex8" ∨ hexType = "hex16") → 1 ≤ blockSize → blockSize ≤ 10 →
      ¬ ((resp.data.length : Int) < blockCount) →
      ∃ out, getRandomHex c blockCount blockSize hexType resp = .ok out ∧
        out.length = resp.data.length) := by
  refine ⟨?_, ?_, ?_⟩
  · intro c num resp hkey hsucc h1 h2 hlen
    refine ⟨convertUint8 resp.data, ?_, by simp [convertUint8]⟩
    unfold getRandomUint8
    rw [if_neg (by unfold maxUint8Length; omega), doRequest_ok hkey hsucc hlen]
  · intro c num resp hkey hsucc h1 h2 hlen
    refine ⟨convertUint16 resp.data, ?_, by simp [convertUint16]⟩
    unfold getRandomUint16
    rw [if_neg (by unfold maxUint16Length; omega), doRequest_ok hkey hsucc hlen]
  · intro c blockCount blockSize hexType resp hkey hsucc ht h1 h2 hlen
    refine ⟨formatHex resp.data hexType blockSize, ?_, by simp [formatHex]⟩
    unfold getRandomHex
    rw [if_neg (by rcases ht with rfl | rfl <;> simp), if_neg (by omega),
      doRequest_ok hkey hsucc hlen]

/-- Witness for C10: one item requested, three returned: all three kept. -/
theorem result_length_eq_data_length_witness :
    (∃ out, getRandomUint8 newClient 1 ⟨true, [1, 2, 3], ""⟩ = .ok out ∧
        out.length = ([1, 2, 3] : List Int).length) ∧
      (∃ out, getRandomUint16 newClient 1 ⟨true, [1, 2, 3], ""⟩ = .ok out ∧
        out.length = ([1, 2, 3] : List Int).length) ∧
      (∃ out, getRandomHex newClient 1 4 "hex16" ⟨true, [1, 2, 3], ""⟩ = .ok out ∧
        out.length = ([1, 2, 3] : List Int).length) :=
  ⟨result_length_eq_data_length.1 newClient 1 ⟨true, [1, 2, 3], ""⟩ (by decide) rfl
      (by norm_num) (by norm_num) (by norm_num),
    result_length_eq_data_length.2.1 newClient 1 ⟨true, [1, 2, 3], ""⟩ (by decide) rfl
      (by norm_num) (by norm_num) (by norm_num),
    result_length_eq_data_length.2.2 newClient 1 4 "hex16" ⟨true, [1, 2, 3], ""⟩
      (by decide) rfl (Or.inr rfl) (by norm_num) (by norm_num) (by norm_num)⟩

end QRNG
